import Mathlib

/-!
Verification of the bytecode inliner `pandarallel/utils/inliner.py`.

The instruction stream of a routine is modelled as a list of natural
numbers (its bytes); the host decoder (`dis`) is an external collaborator
that reports the list of instruction start offsets, so a `Code` value
carries those offsets next to the raw stream.  Fallible Python functions
become functions into `Except Err`; every error the source can raise
(`ValueError`, `TypeError`, `KeyError`, `IndexError`, `OverflowError`)
is one constructor of `Err`.
-/

namespace Inliner

/-- Values stored in a constant pool (`co_consts`).  The subset of Python
values the claims exercise: `None`, integers and strings. -/
inductive Py where
  | none : Py
  | int : Int → Py
  | str : String → Py
deriving DecidableEq, Repr

/-- The exceptions raised by `inliner.py`. -/
inductive Err where
  | valueError (msg : String) : Err
  | typeError (msg : String) : Err
  | keyError : Err
  | indexError : Err
  | overflowError : Err
deriving DecidableEq, Repr

/-- A compiled routine: raw instruction stream (`co_code`), the
instruction start offsets reported by the host decoder, the three
side tables and the parameter count.  For routines rebuilt by the
engine the decoder has not run, so `offsets` is left empty; no modelled
operation reads the offsets of a rebuilt routine. -/
structure Code where
  co_code : List Nat
  offsets : List Nat
  co_consts : List Py
  co_names : List String
  co_varnames : List String
  co_argcount : Nat
deriving DecidableEq, Repr

/-- `signature(func).parameters.keys()`: the declared parameter names are
the first `co_argcount` entries of `co_varnames`. -/
def Code.params (c : Code) : List String := c.co_varnames.take c.co_argcount

namespace OpCode

def JUMP_ABSOLUTE : Nat := 113
def JUMP_IF_FALSE_OR_POP : Nat := 111
def JUMP_IF_TRUE_OR_POP : Nat := 112
def LOAD_ATTR : Nat := 106
def LOAD_CONST : Nat := 100
def LOAD_FAST : Nat := 124
def LOAD_GLOBAL : Nat := 116
def LOAD_METHOD : Nat := 160
def POP_JUMP_IF_FALSE : Nat := 114
def POP_JUMP_IF_TRUE : Nat := 115
def RETURN_VALUE : Nat := 83
def STORE_ATTR : Nat := 95
def STORE_FAST : Nat := 125

end OpCode

/-- `tuple_.index(item)`: index of the first occurrence (total here; the
source only ever calls `.index` on elements known to be present). -/
def index_of {α : Type} [DecidableEq α] (a : α) : List α → Nat
  | [] => 0
  | x :: xs => if x = a then 0 else index_of a xs + 1

/-- `s == t` for Python sets built from two lists. -/
def set_eq {α : Type} [DecidableEq α] (a b : List α) : Bool :=
  (a.all fun x => decide (x ∈ b)) && (b.all fun x => decide (x ∈ a))

/-- `has_duplicates`: `len(set(t)) != len(t)`. -/
def has_duplicates {α : Type} [DecidableEq α] (l : List α) : Bool :=
  decide (¬ l.Nodup)

/-- `remove_duplicates`: `tuple(sorted(set(t), key=t.index))`, i.e. the
distinct elements in order of first occurrence, written with an
accumulator of already-seen elements so that it computes by reduction. -/
def dedup_seen {α : Type} [DecidableEq α] : List α → List α → List α
  | _, [] => []
  | seen, x :: xs =>
    if x ∈ seen then dedup_seen seen xs else x :: dedup_seen (x :: seen) xs

def remove_duplicates {α : Type} [DecidableEq α] (l : List α) : List α :=
  dedup_seen [] l

/-- Boolean "is a prefix of". -/
def isPref {α : Type} [DecidableEq α] : List α → List α → Bool
  | [], _ => true
  | _ :: _, [] => false
  | a :: as_, b :: bs => if a = b then isPref as_ bs else false


/-- `multiple_find(bytecode, sub_bytecode)`: start indices of the
non-overlapping, leftmost occurrences of `sub` (`re.finditer`).  `pos` is
the current offset, `skip` the number of bytes still covered by the last
match. -/
def mfind (sub : List Nat) : List Nat → Nat → Nat → List Nat
  | [], _, _ => []
  | _ :: rest, pos, skip + 1 => mfind sub rest (pos + 1) skip
  | b :: rest, pos, 0 =>
    if isPref sub (b :: rest) then pos :: mfind sub rest (pos + 1) (sub.length - 1)
    else mfind sub rest (pos + 1) 0

def multiple_find (bytecode sub : List Nat) : List Nat :=
  if sub = [] then List.range (bytecode.length + 1)
  else mfind sub bytecode 0 0

/-- The keys of `rep_dict` sorted by length, longest first; Python's
`sorted(..., key=len, reverse=True)` is stable, so among keys of equal
length the dictionary order is kept (for this program all keys have
length 2 and are distinct, so at any position at most one of them
matches and the tie order is irrelevant). -/
def insert_len (kv : List Nat × List Nat) :
    List (List Nat × List Nat) → List (List Nat × List Nat)
  | [] => [kv]
  | x :: xs => if x.1.length ≤ kv.1.length then kv :: x :: xs else x :: insert_len kv xs

def sort_len_desc (l : List (List Nat × List Nat)) : List (List Nat × List Nat) :=
  l.foldr insert_len []

/-- One left-to-right pass of `pattern.sub`: at each position the first
alternative (in sorted order) that matches is replaced; `skip` counts the
bytes still belonging to the last replaced match.  An empty key (never
produced by this program, whose keys are opcode+operand pairs) matches
everywhere and its replacement is inserted before the next byte. -/
def sub_scan (keys : List (List Nat × List Nat)) : List Nat → Nat → List Nat
  | [], _ => []
  | _ :: rest, skip + 1 => sub_scan keys rest skip
  | b :: rest, 0 =>
    match keys.find? (fun kv => isPref kv.1 (b :: rest)) with
    | some kv =>
      if kv.1.length = 0 then kv.2 ++ b :: sub_scan keys rest 0
      else kv.2 ++ sub_scan keys rest (kv.1.length - 1)
    | none => b :: sub_scan keys rest 0

/-- `multiple_replace(bytecode, rep_dict)`.  With an empty dictionary the
source compiles the empty alternation pattern, which matches the empty
string at offset 0, and the replacement callback then looks up the empty
byte string in the empty dictionary: a `KeyError`. -/
def multiple_replace (bytecode : List Nat) (rep_dict : List (List Nat × List Nat)) :
    Except Err (List Nat) :=
  if rep_dict = [] then Except.error Err.keyError
  else Except.ok (sub_scan (sort_len_desc rep_dict) bytecode 0)

/-- `get_transitions(olds, news)`. -/
def get_transitions {α : Type} [DecidableEq α] (olds news : List α) :
    Except Err (List (Nat × Nat)) :=
  if has_duplicates olds then Except.error (Err.valueError "`olds` has duplicates")
  else if has_duplicates news then Except.error (Err.valueError "`news` has duplicates")
  else Except.ok
    ((olds.filter fun o => decide (o ∈ news)).map fun o =>
      (index_of o olds, index_of o news))

/-- `key2value(sources, dests, source2dest)`. -/
def key2value {α β : Type} [DecidableEq α] [DecidableEq β]
    (sources : List α) (dests : List β) (source2dest : List (α × β)) :
    Except Err (List α × List β × List (Nat × Nat)) :=
  if has_duplicates sources then Except.error (Err.valueError "`sources` has duplicates")
  else if has_duplicates dests then Except.error (Err.valueError "`dests` has duplicates")
  else if ¬ (source2dest.all fun kv => decide (kv.1 ∈ sources)) then
    Except.error (Err.valueError "Some keys in `source2dest` are not in `sources`")
  else
    let new_dests := remove_duplicates (dests ++ source2dest.map Prod.snd)
    Except.ok
      (sources.filter fun s => ! (source2dest.any fun kv => decide (kv.1 = s)),
       new_dests,
       source2dest.map fun kv => (index_of kv.1 sources, index_of kv.2 new_dests))

/-- `get_b_transitions(transitions, byte_source, byte_dest)`: each index
pair becomes a two-byte pattern; `bytes([i])` raises a `ValueError` when
an index does not fit in one byte. -/
def get_b_transitions (transitions : List (Nat × Nat)) (byte_source byte_dest : Nat) :
    Except Err (List (List Nat × List Nat)) :=
  match transitions with
  | [] => Except.ok []
  | p :: rest =>
    if p.1 < 256 ∧ p.2 < 256 then
      Except.bind (get_b_transitions rest byte_source byte_dest) fun brest =>
        Except.ok (([byte_source, p.1], [byte_dest, p.2]) :: brest)
    else Except.error (Err.valueError "bytes must be in range(0, 256)")

/-- `pairwise`: `s -> (s0,s1), (s1,s2), ...`. -/
def pairwise_list : List Nat → List (Nat × Nat)
  | a :: b :: rest => (a, b) :: pairwise_list (b :: rest)
  | _ => []

/-- `get_instructions_tuples(func)`: slice the raw stream at the
instruction start offsets reported by the host decoder, the last slice
bounded by the stream length. -/
def get_instructions_tuples (c : Code) : List (List Nat) :=
  (pairwise_list (c.offsets ++ [c.co_code.length])).map fun se =>
    (c.co_code.drop se.1).take (se.2 - se.1)

/-- `has_no_return(func)`: exactly one `RETURN_VALUE` byte in the stream
and the second-to-last instruction starts with `LOAD_CONST` of the index
of `None`.  `co_consts.index(None)` raises a `ValueError` when `None` is
not in the pool, `bytes((idx,))` one when the index exceeds 255, and
`instructions_tuples[-2]` an `IndexError` when there are fewer than two
instructions (only reached when the return count is 1, since `and`
short-circuits). -/
def has_no_return (c : Code) : Except Err Bool :=
  let return_offsets := multiple_find c.co_code [OpCode.RETURN_VALUE]
  if Py.none ∈ c.co_consts then
    let idx := index_of Py.none c.co_consts
    if idx < 256 then
      if return_offsets.length = 1 then
        let ts := get_instructions_tuples c
        if h2 : 2 ≤ ts.length then
          Except.ok (decide ((ts.get ⟨ts.length - 2, by omega⟩).take 2
            = [OpCode.LOAD_CONST, idx]))
        else Except.error Err.indexError
      else Except.ok false
    else Except.error (Err.valueError "bytes must be in range(0, 256)")
  else Except.error (Err.valueError "tuple.index(x): x not in tuple")

def is_jump_op (op : Nat) : Bool :=
  decide (op = OpCode.JUMP_ABSOLUTE ∨ op = OpCode.JUMP_IF_FALSE_OR_POP ∨
    op = OpCode.JUMP_IF_TRUE_OR_POP ∨ op = OpCode.POP_JUMP_IF_FALSE ∨
    op = OpCode.POP_JUMP_IF_TRUE)

/-- `int.from_bytes(value, "little")`. -/
def fromLE : List Nat → Nat
  | [] => 0
  | b :: rest => b + 256 * fromLE rest

/-- One instruction of `get_shifted_bytecode`: re-encode the operand of
the five absolute-jump opcodes as operand + qty in exactly two
little-endian bytes; copy everything else.  `bytes(...)` raises a
`ValueError` on a non-byte, unpacking an empty slice a `ValueError`, and
`int.to_bytes(_, 2, "little")` an `OverflowError` when the shifted
operand does not fit in two bytes. -/
def shift_instruction (qty : Nat) : List Nat → Except Err (List Nat)
  | [] => Except.error (Err.valueError "not enough values to unpack")
  | op :: value =>
    if op < 256 then
      if is_jump_op op then
        if value.all fun b => decide (b < 256) then
          if fromLE value + qty < 65536 then
            Except.ok [op, (fromLE value + qty) % 256, (fromLE value + qty) / 256]
          else Except.error Err.overflowError
        else Except.error (Err.valueError "bytes must be in range(0, 256)")
      else
        if value.all fun b => decide (b < 256) then Except.ok (op :: value)
        else Except.error (Err.valueError "bytes must be in range(0, 256)")
    else Except.error (Err.valueError "bytes must be in range(0, 256)")

def shift_list (qty : Nat) : List (List Nat) → Except Err (List (List Nat))
  | [] => Except.ok []
  | t :: rest =>
    Except.bind (shift_instruction qty t) fun s =>
    Except.bind (shift_list qty rest) fun ss => Except.ok (s :: ss)

/-- `get_shifted_bytecode(func, qty)`. -/
def get_shifted_bytecode (c : Code) (qty : Nat) : Except Err (List Nat) :=
  Except.bind (shift_list qty (get_instructions_tuples c)) fun ts => Except.ok ts.flatten

/-- `pin_arguments(func, arguments)`: bind every declared parameter to a
literal, turning its `LOAD_FAST` reads into `LOAD_CONST` reads and
renumbering the surviving local slots; the rebuilt code object gets
argument count 0, the extended constant pool and the reduced local-slot
table (the host decoder has not run on the rebuilt stream, so its
`offsets` are left empty). -/
def pin_arguments (c : Code) (args : List (String × Py)) : Except Err Code :=
  if set_eq c.params (args.map Prod.fst) then
    let new_co_consts := remove_duplicates (c.co_consts ++ args.map Prod.snd)
    let new_co_varnames :=
      c.co_varnames.filter fun v => ! (args.any fun kv => decide (kv.1 = v))
    let trans_co_varnames2_co_consts :=
      args.map fun kv => (index_of kv.1 c.co_varnames, index_of kv.2 new_co_consts)
    Except.bind (get_transitions c.co_varnames new_co_varnames) fun trans_co_varnames =>
    Except.bind (get_b_transitions trans_co_varnames2_co_consts
        OpCode.LOAD_FAST OpCode.LOAD_CONST) fun b1 =>
    Except.bind (get_b_transitions trans_co_varnames
        OpCode.LOAD_FAST OpCode.LOAD_FAST) fun b2 =>
    Except.bind (get_b_transitions trans_co_varnames
        OpCode.STORE_FAST OpCode.STORE_FAST) fun b3 =>
    Except.bind (multiple_replace c.co_code (b1 ++ b2 ++ b3)) fun new_co_code =>
    Except.ok
      { co_code := new_co_code
        offsets := []
        co_consts := new_co_consts
        co_names := c.co_names
        co_varnames := new_co_varnames
        co_argcount := 0 }
  else Except.error (Err.typeError "`arguments` and `func` arguments do not correspond")

/-- `are_functions_equivalent(l_func, r_func)`.  The seven groups of
byte transitions have pairwise distinct two-byte key prefixes, so the
`{**a, **b, ...}` dictionary merge of the source is a plain
concatenation.  The last two conditions compare `l_code` with itself,
exactly as the source does on its lines 244-245. -/
def are_functions_equivalent (l_func r_func : Code) : Except Err Bool :=
  Except.bind (get_transitions l_func.co_consts r_func.co_consts) fun trans_co_consts =>
  Except.bind (get_transitions l_func.co_names r_func.co_names) fun trans_co_names =>
  Except.bind (get_transitions l_func.co_varnames r_func.co_varnames) fun trans_co_varnames =>
  Except.bind (get_b_transitions trans_co_consts
      OpCode.LOAD_CONST OpCode.LOAD_CONST) fun b1 =>
  Except.bind (get_b_transitions trans_co_names
      OpCode.LOAD_GLOBAL OpCode.LOAD_GLOBAL) fun b2 =>
  Except.bind (get_b_transitions trans_co_names
      OpCode.LOAD_METHOD OpCode.LOAD_METHOD) fun b3 =>
  Except.bind (get_b_transitions trans_co_names
      OpCode.LOAD_ATTR OpCode.LOAD_ATTR) fun b4 =>
  Except.bind (get_b_transitions trans_co_names
      OpCode.STORE_ATTR OpCode.STORE_ATTR) fun b5 =>
  Except.bind (get_b_transitions trans_co_varnames
      OpCode.LOAD_FAST OpCode.LOAD_FAST) fun b6 =>
  Except.bind (get_b_transitions trans_co_varnames
      OpCode.STORE_FAST OpCode.STORE_FAST) fun b7 =>
  Except.bind (multiple_replace l_func.co_code
      (b1 ++ b2 ++ b3 ++ b4 ++ b5 ++ b6 ++ b7)) fun new_l_co_code =>
  Except.ok
    (decide (new_l_co_code = r_func.co_code)
      && set_eq l_func.co_consts r_func.co_consts
      && set_eq l_func.co_names l_func.co_names
      && set_eq l_func.co_varnames l_func.co_varnames)

/-- `inline(pre_func, func, pre_func_arguments)`.  The source imports
`ipdb` and sets a debugger breakpoint just before the byte substitution;
a breakpoint does not change the computed data and is not modelled. -/
def inline (pre_func func : Code) (pre_func_arguments : List (String × Py)) :
    Except Err Code :=
  Except.bind (has_no_return pre_func) fun hnr =>
  if hnr then
    let prefunc_co_code_without_return :=
      ((get_instructions_tuples pre_func).dropLast.dropLast).flatten
    Except.bind (pin_arguments pre_func pre_func_arguments) fun pinned_pre_func =>
    Except.bind (get_shifted_bytecode func prefunc_co_code_without_return.length)
      fun func_co_code =>
    let new_co_consts :=
      remove_duplicates (func.co_consts ++ pinned_pre_func.co_consts)
    let new_co_names :=
      remove_duplicates (func.co_names ++ pinned_pre_func.co_names)
    let new_co_varnames :=
      remove_duplicates (func.co_varnames ++ pinned_pre_func.co_varnames)
    Except.bind (get_transitions pinned_pre_func.co_consts new_co_consts)
      fun trans_co_consts =>
    Except.bind (get_transitions pinned_pre_func.co_names new_co_names)
      fun trans_co_names =>
    Except.bind (get_transitions pinned_pre_func.co_varnames new_co_varnames)
      fun trans_co_varnames =>
    Except.bind (get_b_transitions trans_co_consts
        OpCode.LOAD_CONST OpCode.LOAD_CONST) fun b1 =>
    Except.bind (get_b_transitions trans_co_names
        OpCode.LOAD_GLOBAL OpCode.LOAD_GLOBAL) fun b2 =>
    Except.bind (get_b_transitions trans_co_names
        OpCode.LOAD_METHOD OpCode.LOAD_METHOD) fun b3 =>
    Except.bind (get_b_transitions trans_co_names
        OpCode.LOAD_ATTR OpCode.LOAD_ATTR) fun b4 =>
    Except.bind (get_b_transitions trans_co_names
        OpCode.STORE_ATTR OpCode.STORE_ATTR) fun b5 =>
    Except.bind (get_b_transitions trans_co_varnames
        OpCode.LOAD_FAST OpCode.LOAD_FAST) fun b6 =>
    Except.bind (get_b_transitions trans_co_varnames
        OpCode.STORE_FAST OpCode.STORE_FAST) fun b7 =>
    Except.bind (multiple_replace pinned_pre_func.co_code
        (b1 ++ b2 ++ b3 ++ b4 ++ b5 ++ b6 ++ b7)) fun rewritten =>
    let pinned_prefunc_co_code_without_return :=
      rewritten.take prefunc_co_code_without_return.length
    Except.ok
      { co_code := pinned_prefunc_co_code_without_return ++ func_co_code
        offsets := []
        co_consts := new_co_consts
        co_names := new_co_names
        co_varnames := new_co_varnames
        co_argcount := func.co_argcount }
  else Except.error (Err.valueError "`pre_func` returns something")

/-! Concrete routines used as inputs of witnesses and counterexamples.
The streams use the Python 3.7 wordcode layout documented in the source:
two bytes per instruction, with the start offsets 0, 2, 4, ... reported
by the host decoder. -/

/-- The constant pool `(1, 2, ..., m)`: `m` distinct integers. -/
def int_pool (m : Nat) : List Py :=
  (List.range m).map fun n => Py.int (Int.ofNat n + 1)

/-- `LOAD_GLOBAL 0; RETURN_VALUE` with constant pool `("c",)` and name
pool `("x",)`. -/
def c_names_x : Code :=
  { co_code := [116, 0, 83, 0]
    offsets := [0, 2]
    co_consts := [Py.str "c"]
    co_names := ["x"]
    co_varnames := []
    co_argcount := 0 }

/-- Identical to `c_names_x` except that its name pool is `("y",)`. -/
def c_names_y : Code :=
  { co_code := [116, 0, 83, 0]
    offsets := [0, 2]
    co_consts := [Py.str "c"]
    co_names := ["y"]
    co_varnames := []
    co_argcount := 0 }

/-- `f(a, b)`: `LOAD_FAST a; LOAD_CONST 7; BINARY_ADD; LOAD_FAST b;
BINARY_ADD; RETURN_VALUE` (the sum `a + 7 + b`). -/
def f_a_b : Code :=
  { co_code := [124, 0, 100, 1, 23, 0, 124, 1, 23, 0, 83, 0]
    offsets := [0, 2, 4, 6, 8, 10]
    co_consts := [Py.none, Py.int 7]
    co_names := []
    co_varnames := ["a", "b"]
    co_argcount := 2 }

/-- The routine `pin_arguments` builds from `f_a_b` and the complete
binding `{a: 10, b: 5}`. -/
def pinned_f_a_b : Code :=
  { co_code := [100, 2, 100, 1, 23, 0, 100, 3, 23, 0, 83, 0]
    offsets := []
    co_consts := [Py.none, Py.int 7, Py.int 10, Py.int 5]
    co_names := []
    co_varnames := []
    co_argcount := 0 }

/-- A routine with no parameters and no local slots:
`LOAD_CONST None; RETURN_VALUE`. -/
def zero_param_f : Code :=
  { co_code := [100, 0, 83, 0]
    offsets := [0, 2]
    co_consts := [Py.none]
    co_names := []
    co_varnames := []
    co_argcount := 0 }

/-- A valid pre-routine `pre(a)`: `LOAD_FAST a; POP_TOP;
LOAD_CONST None; RETURN_VALUE` — exactly one return byte, returning the
`None` sentinel. -/
def pre_f : Code :=
  { co_code := [124, 0, 1, 0, 100, 0, 83, 0]
    offsets := [0, 2, 4, 6]
    co_consts := [Py.none]
    co_names := []
    co_varnames := ["a"]
    co_argcount := 1 }

/-- The routine `pin_arguments` builds from `pre_f` and `{a: "q"}`. -/
def pinned_pre_f : Code :=
  { co_code := [100, 1, 1, 0, 100, 0, 83, 0]
    offsets := []
    co_consts := [Py.none, Py.str "q"]
    co_names := []
    co_varnames := []
    co_argcount := 0 }

/-- A main routine with 256 distinct constants `1, ..., 256` (none of
them `None`): merging `pre_f`'s pinned pool into it puts `None` at
index 256, which no longer fits in an operand byte. -/
def main_256 : Code :=
  { co_code := [100, 0, 83, 0]
    offsets := [0, 2]
    co_consts := int_pool 256
    co_names := []
    co_varnames := []
    co_argcount := 0 }

/-- A one-parameter routine with 256 distinct constants: pinning `a` to
`None` appends it at constant index 256. -/
def g_256 : Code :=
  { co_code := [124, 0, 83, 0]
    offsets := [0, 2]
    co_consts := int_pool 256
    co_names := []
    co_varnames := ["a"]
    co_argcount := 1 }

/-- A routine whose constant pool already has 257 entries. -/
def big_257 : Code :=
  { co_code := [100, 0, 83, 0]
    offsets := [0, 2]
    co_consts := int_pool 257
    co_names := []
    co_varnames := []
    co_argcount := 0 }

/-- `JUMP_ABSOLUTE 5; LOAD_CONST 1` in the three-byte encoding whose
boundaries the host decoder reports as offsets 0 and 3. -/
def jump_f : Code :=
  { co_code := [113, 5, 0, 100, 1, 0]
    offsets := [0, 3]
    co_consts := []
    co_names := []
    co_varnames := []
    co_argcount := 0 }

/-- A routine with empty constant, name and local-slot pools
(constructible through the host's raw code-object constructor):
a bare `RETURN_VALUE`. -/
def c_empty : Code :=
  { co_code := [83, 0]
    offsets := [0]
    co_consts := []
    co_names := []
    co_varnames := []
    co_argcount := 0 }

/-- A pre-routine that really returns something:
`LOAD_FAST a; RETURN_VALUE`. -/
def ret_f : Code :=
  { co_code := [124, 0, 83, 0]
    offsets := [0, 2]
    co_consts := [Py.none]
    co_names := []
    co_varnames := ["a"]
    co_argcount := 1 }

/-- The routine `pin_arguments` builds from `pre_f` and `{a: "r"}`. -/
def pinned_pre_r : Code :=
  { co_code := [100, 1, 1, 0, 100, 0, 83, 0]
    offsets := []
    co_consts := [Py.none, Py.str "r"]
    co_names := []
    co_varnames := []
    co_argcount := 0 }

/-- The output stream described by the specification of the jump
shifter, written from the claim's words: every instruction whose opcode
is one of the five designated jump opcodes has its operand, read as a
little-endian integer, replaced by that integer plus `qty` re-encoded as
exactly two little-endian bytes; every other instruction is copied
byte-for-byte unchanged. -/
def shift_claim (ts : List (List Nat)) (qty : Nat) : List Nat :=
  (ts.map fun t =>
    match t with
    | [] => []
    | op :: value =>
      if is_jump_op op then
        op :: [(fromLE value + qty) % 256, (fromLE value + qty) / 256]
      else op :: value).flatten

section BasicLemmas

variable {α : Type} [DecidableEq α]

theorem index_of_lt_length {a : α} {l : List α} (h : a ∈ l) :
    index_of a l < l.length := by
  induction l with
  | nil => cases h
  | cons x xs ih =>
    simp only [index_of]
    split
    · simp
    · rename_i hx
      rcases List.mem_cons.mp h with h1 | h1
      · exact absurd h1.symm hx
      · have := ih h1
        simp only [List.length_cons]
        omega

theorem get_index_of {a : α} {l : List α} (h : a ∈ l)
    (hlt : index_of a l < l.length) : l.get ⟨index_of a l, hlt⟩ = a := by
  induction l with
  | nil => cases h
  | cons x xs ih =>
    by_cases hx : x = a
    · simp [index_of, hx]
    · rcases List.mem_cons.mp h with h1 | h1
      · exact absurd h1.symm hx
      · have hlt' : index_of a xs < xs.length := index_of_lt_length h1
        simp only [index_of, if_neg hx]
        simpa using ih h1 hlt'

theorem index_of_get {l : List α} (hnd : l.Nodup) (i : Fin l.length) :
    index_of (l.get i) l = i.val := by
  induction l with
  | nil => exact absurd i.isLt (by simp)
  | cons x xs ih =>
    rcases i with ⟨iv, hi⟩
    cases iv with
    | zero => simp [index_of]
    | succ n =>
      have hn : n < xs.length := by simpa using hi
      have hmem : xs.get ⟨n, hn⟩ ∈ xs := List.get_mem xs _ _
      have hx : x ≠ xs.get ⟨n, hn⟩ := by
        intro he
        exact (List.nodup_cons.mp hnd).1 (he ▸ hmem)
      have hrec := ih (List.nodup_cons.mp hnd).2 ⟨n, hn⟩
      simp only [Fin.val_mk] at hrec
      simp only [List.get_cons_succ, index_of, if_neg hx, hrec]

theorem mem_dedup_seen {a : α} :
    ∀ (seen l : List α), a ∈ dedup_seen seen l ↔ a ∈ l ∧ a ∉ seen := by
  intro seen l
  induction l generalizing seen with
  | nil => simp [dedup_seen]
  | cons x xs ih =>
    simp only [dedup_seen]
    split
    · rename_i hx
      rw [ih]
      constructor
      · rintro ⟨h1, h2⟩; exact ⟨List.mem_cons_of_mem _ h1, h2⟩
      · rintro ⟨h1, h2⟩
        rcases List.mem_cons.mp h1 with h1 | h1
        · exact absurd (h1 ▸ hx) h2
        · exact ⟨h1, h2⟩
    · rename_i hx
      constructor
      · intro h
        rcases List.mem_cons.mp h with h1 | h1
        · exact ⟨h1 ▸ List.mem_cons_self _ _, h1 ▸ hx⟩
        · have := (ih (x :: seen)).mp h1
          refine ⟨List.mem_cons_of_mem _ this.1, ?_⟩
          intro hs
          exact this.2 (List.mem_cons_of_mem _ hs)
      · rintro ⟨h1, h2⟩
        rcases List.mem_cons.mp h1 with h1 | h1
        · exact h1 ▸ List.mem_cons_self _ _
        · by_cases hax : a = x
          · exact hax ▸ List.mem_cons_self _ _
          · refine List.mem_cons_of_mem _ ((ih (x :: seen)).mpr ⟨h1, ?_⟩)
            intro hs
            rcases List.mem_cons.mp hs with h3 | h3
            · exact hax h3
            · exact h2 h3

theorem mem_remove_duplicates {a : α} {l : List α} :
    a ∈ remove_duplicates l ↔ a ∈ l := by
  simp [remove_duplicates, mem_dedup_seen]

theorem nodup_dedup_seen : ∀ (seen l : List α), (dedup_seen seen l).Nodup := by
  intro seen l
  induction l generalizing seen with
  | nil => simp [dedup_seen]
  | cons x xs ih =>
    simp only [dedup_seen]
    split
    · exact ih seen
    · refine List.nodup_cons.mpr ⟨?_, ih (x :: seen)⟩
      intro hmem
      exact (mem_dedup_seen _ _ |>.mp hmem).2 (List.mem_cons_self _ _)

theorem nodup_remove_duplicates (l : List α) : (remove_duplicates l).Nodup :=
  nodup_dedup_seen [] l

theorem isPref_iff {s l : List α} : isPref s l = true ↔ ∃ t, s ++ t = l := by
  induction s generalizing l with
  | nil => simp [isPref]
  | cons a as_ ih =>
    cases l with
    | nil => simp [isPref]
    | cons b bs =>
      simp only [isPref]
      split
      · rename_i hab
        rw [ih]
        constructor
        · rintro ⟨t, rfl⟩; exact ⟨t, by simp [hab]⟩
        · rintro ⟨t, ht⟩
          exact ⟨t, by simpa [hab] using ht⟩
      · rename_i hab
        constructor
        · intro h; cases h
        · rintro ⟨t, ht⟩
          simp only [List.cons_append, List.cons.injEq] at ht
          exact absurd ht.1 hab

theorem set_eq_self (l : List α) : set_eq l l = true := by
  simp [set_eq, List.all_eq_true]

end BasicLemmas

theorem Except_bind_ok {α β : Type} (a : α) (f : α → Except Err β) :
    Except.bind (Except.ok a) f = f a := rfl

theorem Except_bind_error {α β : Type} (e : Err) (f : α → Except Err β) :
    Except.bind (Except.error e) f = Except.error e := rfl

section CoreLemmas

variable {α : Type} [DecidableEq α]

theorem dedup_seen_eq_self {l : List α} (hl : l.Nodup) :
    ∀ seen : List α, (∀ a ∈ l, a ∉ seen) → dedup_seen seen l = l := by
  induction l with
  | nil => intro seen _; rfl
  | cons x xs ih =>
    intro seen hs
    have hx : x ∉ seen := hs x (List.mem_cons_self _ _)
    simp only [dedup_seen, if_neg hx]
    rw [ih (List.nodup_cons.mp hl).2]
    intro a ha
    intro hmem
    rcases List.mem_cons.mp hmem with h1 | h1
    · exact (List.nodup_cons.mp hl).1 (h1 ▸ ha)
    · exact hs a (List.mem_cons_of_mem _ ha) h1

theorem remove_duplicates_eq_self {l : List α} (hl : l.Nodup) :
    remove_duplicates l = l :=
  dedup_seen_eq_self hl [] (by simp)

theorem index_of_append_of_not_mem {a : α} {l₁ : List α} (h : a ∉ l₁) (l₂ : List α) :
    index_of a (l₁ ++ l₂) = l₁.length + index_of a l₂ := by
  induction l₁ with
  | nil => simp
  | cons x xs ih =>
    have hx : x ≠ a := fun he => h (he ▸ List.mem_cons_self _ _)
    simp only [List.cons_append, index_of, if_neg hx, List.length_cons, List.append_eq]
    rw [ih fun hm => h (List.mem_cons_of_mem _ hm)]
    omega

theorem has_duplicates_eq_false {l : List α} (h : l.Nodup) :
    has_duplicates l = false := by
  simp [has_duplicates, h]

theorem get_transitions_ok {olds news : List α} (h1 : olds.Nodup) (h2 : news.Nodup) :
    get_transitions olds news
      = Except.ok ((olds.filter fun o => decide (o ∈ news)).map fun o =>
          (index_of o olds, index_of o news)) := by
  simp [get_transitions, has_duplicates_eq_false h1, has_duplicates_eq_false h2]

theorem get_b_transitions_ok {t : List (Nat × Nat)} (bs bd : Nat)
    (h : ∀ p ∈ t, p.1 < 256 ∧ p.2 < 256) :
    get_b_transitions t bs bd
      = Except.ok (t.map fun p => ([bs, p.1], [bd, p.2])) := by
  induction t with
  | nil => rfl
  | cons p rest ih =>
    have hp := h p (List.mem_cons_self _ _)
    simp only [get_b_transitions, if_pos hp]
    rw [ih fun q hq => h q (List.mem_cons_of_mem _ hq)]
    rfl

theorem get_b_transitions_error {t : List (Nat × Nat)} (bs bd : Nat)
    (h : ∃ p ∈ t, 256 ≤ p.1 ∨ 256 ≤ p.2) :
    get_b_transitions t bs bd
      = Except.error (Err.valueError "bytes must be in range(0, 256)") := by
  induction t with
  | nil => rcases h with ⟨p, hp, _⟩; cases hp
  | cons q rest ih =>
    simp only [get_b_transitions]
    split
    · rename_i hq
      rcases h with ⟨p, hp, hbig⟩
      rcases List.mem_cons.mp hp with h1 | h1
      · subst h1; omega
      · rw [ih ⟨p, h1, hbig⟩]
        rfl
    · rfl

theorem mem_insert_len {kv x : List Nat × List Nat} :
    ∀ {l : List (List Nat × List Nat)}, x ∈ insert_len kv l ↔ x = kv ∨ x ∈ l := by
  intro l
  induction l with
  | nil => simp [insert_len]
  | cons y ys ih =>
    simp only [insert_len]
    split
    · simp
    · rw [List.mem_cons, ih, List.mem_cons]
      tauto

theorem mem_sort_len_desc {kv : List Nat × List Nat}
    {l : List (List Nat × List Nat)} : kv ∈ sort_len_desc l ↔ kv ∈ l := by
  induction l with
  | nil => simp [sort_len_desc]
  | cons x xs ih =>
    show kv ∈ insert_len x (sort_len_desc xs) ↔ _
    rw [mem_insert_len, ih, List.mem_cons]

theorem sub_scan_skip (keys : List (List Nat × List Nat)) :
    ∀ (l : List Nat) (s : Nat), sub_scan keys l s = sub_scan keys (l.drop s) 0 := by
  intro l
  induction l with
  | nil => intro s; simp [sub_scan]
  | cons b rest ih =>
    intro s
    cases s with
    | zero => rfl
    | succ n => simpa [sub_scan] using ih n

theorem sub_scan_id_aux (keys : List (List Nat × List Nat))
    (hid : ∀ kv ∈ keys, kv.2 = kv.1) :
    ∀ (n : Nat) (l : List Nat), l.length ≤ n → sub_scan keys l 0 = l := by
  intro n
  induction n with
  | zero =>
    intro l hl
    rw [List.length_eq_zero.mp (Nat.le_zero.mp hl)]
    rfl
  | succ n ih =>
    intro l hl
    cases l with
    | nil => rfl
    | cons b rest =>
      show sub_scan keys (b :: rest) 0 = b :: rest
      simp only [sub_scan]
      cases hf : keys.find? fun kv => isPref kv.1 (b :: rest) with
      | none =>
        simp only []
        rw [ih rest (by simpa using (by simpa using hl))]
      | some kv =>
        have hkv : kv ∈ keys := List.mem_of_find?_eq_some hf
        have hmatch : isPref kv.1 (b :: rest) = true := by
          simpa using List.find?_some hf
        obtain ⟨t, ht⟩ := isPref_iff.mp hmatch
        have hval := hid kv hkv
        simp only []
        split
        · rename_i hzero
          rw [List.length_eq_zero.mp hzero] at hval
          rw [hval, ih rest (by simpa using (by simpa using hl))]
          rfl
        · rename_i hnz
          have hk1 : 1 ≤ kv.1.length := Nat.one_le_iff_ne_zero.mpr hnz
          rw [sub_scan_skip, hval]
          have hdrop : rest.drop (kv.1.length - 1) = t := by
            have h1 : (b :: rest).drop kv.1.length = t := by
              rw [← ht, List.drop_left]
            have h2 : (b :: rest).drop kv.1.length = rest.drop (kv.1.length - 1) := by
              obtain ⟨m, hm⟩ : ∃ m, kv.1.length = m + 1 := ⟨kv.1.length - 1, by omega⟩
              rw [hm, List.drop_succ_cons]
              simp
            rw [← h1, h2]
          have hlen : (rest.drop (kv.1.length - 1)).length ≤ n := by
            have := List.length_drop (kv.1.length - 1) rest
            have hrest : rest.length ≤ n := (by simpa using hl)
            omega
          rw [ih _ hlen, hdrop, ht]

theorem sub_scan_id (keys : List (List Nat × List Nat))
    (hid : ∀ kv ∈ keys, kv.2 = kv.1) (l : List Nat) : sub_scan keys l 0 = l :=
  sub_scan_id_aux keys hid l.length l (Nat.le_refl _)

theorem sub_scan_len_aux (keys : List (List Nat × List Nat))
    (hlen : ∀ kv ∈ keys, kv.2.length = kv.1.length) :
    ∀ (n : Nat) (l : List Nat), l.length ≤ n →
      (sub_scan keys l 0).length = l.length := by
  intro n
  induction n with
  | zero =>
    intro l hl
    rw [List.length_eq_zero.mp (Nat.le_zero.mp hl)]
    rfl
  | succ n ih =>
    intro l hl
    cases l with
    | nil => rfl
    | cons b rest =>
      have hrest : rest.length ≤ n := (by simpa using hl)
      show (sub_scan keys (b :: rest) 0).length = (b :: rest).length
      simp only [sub_scan]
      cases hf : keys.find? fun kv => isPref kv.1 (b :: rest) with
      | none =>
        simp only [List.length_cons]
        rw [ih rest hrest]
      | some kv =>
        have hkv : kv ∈ keys := List.mem_of_find?_eq_some hf
        have hmatch : isPref kv.1 (b :: rest) = true := by
          simpa using List.find?_some hf
        obtain ⟨t, ht⟩ := isPref_iff.mp hmatch
        have hval := hlen kv hkv
        have hbound : kv.1.length ≤ rest.length + 1 := by
          have := congrArg List.length ht
          simp only [List.length_append, List.length_cons] at this
          omega
        simp only []
        split
        · rename_i hzero
          simp only [List.length_append, List.length_cons, hval, hzero]
          rw [ih rest hrest]
          omega
        · rename_i hnz
          rw [sub_scan_skip]
          have hdlen : (rest.drop (kv.1.length - 1)).length ≤ n := by
            have := List.length_drop (kv.1.length - 1) rest
            omega
          simp only [List.length_append, hval]
          rw [ih _ hdlen]
          have := List.length_drop (kv.1.length - 1) rest
          simp only [this, List.length_cons]
          omega

theorem multiple_replace_id {bytecode : List Nat}
    {rep : List (List Nat × List Nat)} (hne : rep ≠ [])
    (hid : ∀ kv ∈ rep, kv.2 = kv.1) :
    multiple_replace bytecode rep = Except.ok bytecode := by
  rw [multiple_replace, if_neg hne, sub_scan_id]
  intro kv hkv
  exact hid kv (mem_sort_len_desc.mp hkv)

theorem multiple_replace_length {bytecode : List Nat}
    {rep : List (List Nat × List Nat)} (hne : rep ≠ [])
    (hlen : ∀ kv ∈ rep, kv.2.length = kv.1.length) :
    multiple_replace bytecode rep
      = Except.ok (sub_scan (sort_len_desc rep) bytecode 0)
    ∧ (sub_scan (sort_len_desc rep) bytecode 0).length = bytecode.length := by
  constructor
  · rw [multiple_replace, if_neg hne]
  · exact sub_scan_len_aux _ (fun kv hkv => hlen kv (mem_sort_len_desc.mp hkv))
      bytecode.length bytecode (Nat.le_refl _)

end CoreLemmas

theorem Except_bind_eq_ok {α β : Type} {x : Except Err α} {f : α → Except Err β}
    {b : β} (h : Except.bind x f = Except.ok b) :
    ∃ a, x = Except.ok a ∧ f a = Except.ok b := by
  cases x with
  | ok a => exact ⟨a, rfl, h⟩
  | error e => exact Except.noConfusion h

/-- The shape of every routine `pin_arguments` successfully returns:
zero parameters, the deduplicated extended constant pool, the filtered
local-slot table, and the unchanged name pool. -/
theorem pin_arguments_ok_shape {c : Code} {args : List (String × Py)} {res : Code}
    (h : pin_arguments c args = Except.ok res) :
    res.co_argcount = 0
    ∧ res.co_consts = remove_duplicates (c.co_consts ++ args.map Prod.snd)
    ∧ res.co_varnames
        = c.co_varnames.filter (fun v => ! (args.any fun kv => decide (kv.1 = v)))
    ∧ res.co_names = c.co_names := by
  simp only [pin_arguments] at h
  split at h
  · obtain ⟨tv, htv, h⟩ := Except_bind_eq_ok h
    obtain ⟨v1, hv1, h⟩ := Except_bind_eq_ok h
    obtain ⟨v2, hv2, h⟩ := Except_bind_eq_ok h
    obtain ⟨v3, hv3, h⟩ := Except_bind_eq_ok h
    obtain ⟨v4, hv4, h⟩ := Except_bind_eq_ok h
    cases h
    exact ⟨rfl, rfl, rfl, rfl⟩
  · exact Except.noConfusion h

/-- `are_functions_equivalent` fails with the byte-range `ValueError`
whenever the two constant pools share an element whose index in either
pool does not fit in one byte. -/
theorem are_functions_equivalent_big_error {l r : Code}
    (h1 : l.co_consts.Nodup) (h2 : r.co_consts.Nodup)
    (h3 : l.co_names.Nodup) (h4 : r.co_names.Nodup)
    (h5 : l.co_varnames.Nodup) (h6 : r.co_varnames.Nodup)
    (hx : ∃ x, x ∈ l.co_consts ∧ x ∈ r.co_consts
          ∧ (256 ≤ index_of x l.co_consts ∨ 256 ≤ index_of x r.co_consts)) :
    are_functions_equivalent l r
      = Except.error (Err.valueError "bytes must be in range(0, 256)") := by
  obtain ⟨x, hxl, hxr, hbig⟩ := hx
  have htc := get_transitions_ok h1 h2
  have htn := get_transitions_ok h3 h4
  have htv := get_transitions_ok h5 h6
  have hb1 : get_b_transitions
      ((l.co_consts.filter fun o => decide (o ∈ r.co_consts)).map fun o =>
        (index_of o l.co_consts, index_of o r.co_consts))
      OpCode.LOAD_CONST OpCode.LOAD_CONST
      = Except.error (Err.valueError "bytes must be in range(0, 256)") :=
    get_b_transitions_error _ _
      ⟨(index_of x l.co_consts, index_of x r.co_consts),
        List.mem_map.mpr ⟨x, List.mem_filter.mpr ⟨hxl, by simpa using hxr⟩, rfl⟩,
        hbig⟩
  simp only [are_functions_equivalent, htc, htn, htv, Except_bind_ok, hb1,
    Except_bind_error]

/-- `pin_arguments` fails with the byte-range `ValueError` whenever a
pinned parameter's local-slot index or its value's index in the extended
constant pool does not fit in one byte. -/
theorem pin_arguments_big_error {c : Code} {args : List (String × Py)}
    (hset : set_eq c.params (args.map Prod.fst) = true)
    (hv : c.co_varnames.Nodup)
    (hbig : ∃ p ∈ args, 256 ≤ index_of p.1 c.co_varnames
        ∨ 256 ≤ index_of p.2 (remove_duplicates (c.co_consts ++ args.map Prod.snd))) :
    pin_arguments c args
      = Except.error (Err.valueError "bytes must be in range(0, 256)") := by
  obtain ⟨p, hp, hbig⟩ := hbig
  have hvv := get_transitions_ok hv
    (hv.filter (fun v => ! (args.any fun kv => decide (kv.1 = v))))
  have hb1 : get_b_transitions
      (args.map fun kv => (index_of kv.1 c.co_varnames,
        index_of kv.2 (remove_duplicates (c.co_consts ++ args.map Prod.snd))))
      OpCode.LOAD_FAST OpCode.LOAD_CONST
      = Except.error (Err.valueError "bytes must be in range(0, 256)") :=
    get_b_transitions_error _ _
      ⟨(index_of p.1 c.co_varnames,
        index_of p.2 (remove_duplicates (c.co_consts ++ args.map Prod.snd))),
        List.mem_map.mpr ⟨p, hp, rfl⟩, hbig⟩
  simp only [pin_arguments, if_pos hset, hvv, Except_bind_ok, hb1,
    Except_bind_error]

/-- `inline` fails with the byte-range `ValueError` whenever some
constant of the specialized pre-routine lands at an index of the merged
constant pool that does not fit in one byte. -/
theorem inline_big_const_error {pre main : Code} {args : List (String × Py)}
    {pinned : Code}
    (hnr : has_no_return pre = Except.ok true)
    (hpin : pin_arguments pre args = Except.ok pinned)
    (hshift : ∃ s, get_shifted_bytecode main
        ((get_instructions_tuples pre).dropLast.dropLast.flatten.length)
        = Except.ok s)
    (hn : pinned.co_names.Nodup)
    (hv : pinned.co_varnames.Nodup)
    (hbig : ∃ x ∈ pinned.co_consts,
        256 ≤ index_of x (remove_duplicates (main.co_consts ++ pinned.co_consts))) :
    inline pre main args
      = Except.error (Err.valueError "bytes must be in range(0, 256)") := by
  obtain ⟨s, hs⟩ := hshift
  obtain ⟨x, hx, hxbig⟩ := hbig
  have hcnodup : pinned.co_consts.Nodup := by
    rw [(pin_arguments_ok_shape hpin).2.1]
    exact nodup_remove_duplicates _
  have htc := get_transitions_ok hcnodup
    (nodup_remove_duplicates (main.co_consts ++ pinned.co_consts))
  have htn := get_transitions_ok hn
    (nodup_remove_duplicates (main.co_names ++ pinned.co_names))
  have htv := get_transitions_ok hv
    (nodup_remove_duplicates (main.co_varnames ++ pinned.co_varnames))
  have hxmerged : x ∈ remove_duplicates (main.co_consts ++ pinned.co_consts) :=
    mem_remove_duplicates.mpr (List.mem_append.mpr (Or.inr hx))
  have hb1 : get_b_transitions
      ((pinned.co_consts.filter fun o =>
          decide (o ∈ remove_duplicates (main.co_consts ++ pinned.co_consts))).map
        fun o => (index_of o pinned.co_consts,
          index_of o (remove_duplicates (main.co_consts ++ pinned.co_consts))))
      OpCode.LOAD_CONST OpCode.LOAD_CONST
      = Except.error (Err.valueError "bytes must be in range(0, 256)") :=
    get_b_transitions_error _ _
      ⟨(index_of x pinned.co_consts,
        index_of x (remove_duplicates (main.co_consts ++ pinned.co_consts))),
        List.mem_map.mpr ⟨x, List.mem_filter.mpr ⟨hx, by simpa using hxmerged⟩, rfl⟩,
        Or.inr hxbig⟩
  simp only [inline, hnr, Except_bind_ok, if_pos, hpin, hs, htc, htn, htv, hb1,
    Except_bind_error]

/-! Facts about the concrete 256/257-entry constant pools. -/

theorem int_pool_nodup (m : Nat) : (int_pool m).Nodup := by
  refine List.Nodup.map ?_ (List.nodup_range m)
  intro a b hab
  have h := Py.int.inj hab
  rw [Int.ofNat_eq_natCast, Int.ofNat_eq_natCast] at h
  omega

theorem int_pool_length (m : Nat) : (int_pool m).length = m := by
  simp [int_pool]

theorem int_pool_shape {m : Nat} {x : Py} (h : x ∈ int_pool m) :
    ∃ k : Int, x = Py.int k := by
  obtain ⟨n, _, rfl⟩ := List.mem_map.mp h
  exact ⟨Int.ofNat n + 1, rfl⟩

theorem index_of_int_pool {m k : Nat} (hk : k < m) :
    index_of (Py.int (Int.ofNat k + 1)) (int_pool m) = k := by
  have hlen : k < (int_pool m).length := by
    rw [int_pool_length]; exact hk
  have hget : (int_pool m).get ⟨k, hlen⟩ = Py.int (Int.ofNat k + 1) := by
    simp [int_pool, List.get_eq_getElem]
  have := index_of_get (int_pool_nodup m) ⟨k, hlen⟩
  rw [hget] at this
  exact this

/-- Appending pool entries that are not integers behind `int_pool m`
keeps the list duplicate-free and places them at indices `m`, ... -/
theorem merge_extra_index {m : Nat} {extra : List Py}
    (hextra : extra.Nodup) (hshape : ∀ x ∈ extra, ∀ k : Int, x ≠ Py.int k) :
    remove_duplicates (int_pool m ++ extra) = int_pool m ++ extra
    ∧ ∀ x ∈ extra, index_of x (int_pool m ++ extra) = m + index_of x extra := by
  have hdisj : List.Disjoint (int_pool m) extra := by
    intro a ha hb
    obtain ⟨k, rfl⟩ := int_pool_shape ha
    exact hshape _ hb k rfl
  constructor
  · exact remove_duplicates_eq_self
      (List.Nodup.append (int_pool_nodup m) hextra hdisj)
  · intro x hx
    rw [index_of_append_of_not_mem (fun hm => hdisj hm hx)]
    rw [int_pool_length]

/-! Counting `RETURN_VALUE` bytes. -/

theorem mfind_singleton_length (x : Nat) :
    ∀ (l : List Nat) (pos : Nat), (mfind [x] l pos 0).length = List.count x l := by
  intro l
  induction l with
  | nil => intro pos; simp [mfind]
  | cons b rest ih =>
    intro pos
    by_cases hxb : x = b
    · rw [mfind, if_pos (by simp [isPref, hxb])]
      simp only [List.length_cons, List.length_nil, List.count_cons]
      rw [show 0 + 1 - 1 = 0 from rfl, ih (pos + 1)]
      simp [hxb]
    · rw [mfind, if_neg (by simp [isPref, hxb])]
      rw [ih (pos + 1)]
      simp [List.count_cons, Ne.symm hxb]

theorem multiple_find_singleton_length (l : List Nat) (x : Nat) :
    (multiple_find l [x]).length = List.count x l := by
  rw [multiple_find, if_neg (by simp)]
  exact mfind_singleton_length x l 0

/-- Every byte of an instruction slice is a byte of the stream. -/
theorem mem_instruction_mem_code {c : Code} {t : List Nat}
    (ht : t ∈ get_instructions_tuples c) {b : Nat} (hb : b ∈ t) :
    b ∈ c.co_code := by
  obtain ⟨se, _, rfl⟩ := List.mem_map.mp ht
  have h1 : b ∈ c.co_code.drop se.1 :=
    (List.take_sublist _ _).subset hb
  exact (List.drop_sublist _ _).subset h1

/-- Rewriting a pool through its own transition map is the identity:
the byte transitions of a pool with itself. -/
theorem get_b_identity {α : Type} [DecidableEq α] {l : List α} (bs : Nat)
    (hl : l.length ≤ 256) :
    ∃ B, get_b_transitions
        ((l.filter fun o => decide (o ∈ l)).map fun o =>
          (index_of o l, index_of o l)) bs bs
      = Except.ok B
    ∧ (∀ kv ∈ B, kv.2 = kv.1) ∧ (B = [] ↔ l = []) := by
  have hfilter : (l.filter fun o => decide (o ∈ l)) = l :=
    List.filter_eq_self.mpr fun a ha => by simpa using ha
  refine ⟨_, get_b_transitions_ok bs bs ?_, ?_, ?_⟩
  · intro p hp
    obtain ⟨o, ho, rfl⟩ := List.mem_map.mp hp
    have hol : o ∈ l := (List.mem_filter.mp ho).1
    have := index_of_lt_length hol
    constructor <;> omega
  · intro kv hkv
    obtain ⟨p, hp, rfl⟩ := List.mem_map.mp hkv
    obtain ⟨o, _, rfl⟩ := List.mem_map.mp hp
    rfl
  · rw [hfilter]
    simp

/-! The claims. -/

/-- C1: the claim requires `are_functions_equivalent(L, R)` to be true
only if the name pools (and local-slot tables) of `L` and `R` are equal
as sets.  The source compares `set(l_code.co_names)` with itself
(lines 244-245), so two routines that differ only in their name pools
are reported equivalent: with `L = c_names_x` and `R = c_names_y` the
checker returns `True` although the name pools `{"x"}` and `{"y"}`
differ. -/
theorem c1_checker_compares_left_name_pool_with_itself :
    are_functions_equivalent c_names_x c_names_y = Except.ok true
    ∧ set_eq c_names_x.co_names c_names_y.co_names = false :=
  ⟨rfl, rfl⟩

/-- C2 (amended): `pin_arguments` rejects the partial binding
`{a: 10}` of `f(a, b)` with a `TypeError` (the binding must cover the
parameters exactly); with the complete binding `{a: 10, b: 5}` it
returns a zero-parameter routine whose body loads the literal `10`,
loads the literal `7`, adds, loads the literal `5`, adds, and returns
the sum. -/
theorem c2_pin_concrete_scenario :
    pin_arguments f_a_b [("a", Py.int 10)]
      = Except.error
          (Err.typeError "`arguments` and `func` arguments do not correspond")
    ∧ pin_arguments f_a_b [("a", Py.int 10), ("b", Py.int 5)]
      = Except.ok pinned_f_a_b :=
  ⟨rfl, rfl⟩

/-- C2, counterexample to the claim as stated: the partial binding
`{a: 10}` does not produce a one-parameter routine — it raises a
`TypeError`. -/
theorem c2_partial_binding_raises :
    pin_arguments f_a_b [("a", Py.int 10)]
      = Except.error
          (Err.typeError "`arguments` and `func` arguments do not correspond") :=
  rfl

/-- C3 (amended): whenever `pin_arguments` returns a routine, that
routine has parameter count zero, the local-slot table of `R` with every
pinned name removed (in original order), and `R`'s constant pool
extended with the bound values, deduplicated in first-seen order. -/
theorem c3_pin_result_shape (c : Code) (args : List (String × Py)) (res : Code)
    (h : pin_arguments c args = Except.ok res) :
    res.co_argcount = 0
    ∧ res.co_varnames
        = c.co_varnames.filter (fun v => ! (args.any fun kv => decide (kv.1 = v)))
    ∧ res.co_consts = remove_duplicates (c.co_consts ++ args.map Prod.snd) := by
  obtain ⟨h1, h2, h3, _⟩ := pin_arguments_ok_shape h
  exact ⟨h1, h3, h2⟩

/-- C3, counterexample to the claim as stated: for a routine with no
parameters and no local slots (binding `{}` covers its parameters
exactly) `pin_arguments` returns no routine at all — the rewrite
dictionary is empty and the empty-pattern substitution raises a
`KeyError`. -/
theorem c3_pin_no_slots_raises :
    pin_arguments zero_param_f [] = Except.error Err.keyError :=
  rfl

/-- C3, witness: the shape theorem evaluated on `f(a, b)` pinned with
`{a: 10, b: 5}`. -/
theorem c3_pin_result_shape_witness :
    pinned_f_a_b.co_argcount = 0
    ∧ pinned_f_a_b.co_varnames
        = f_a_b.co_varnames.filter
            (fun v => ! ([("a", Py.int 10), ("b", Py.int 5)].any
              fun kv => decide (kv.1 = v)))
    ∧ pinned_f_a_b.co_consts
        = remove_duplicates
            (f_a_b.co_consts ++ [("a", Py.int 10), ("b", Py.int 5)].map Prod.snd) :=
  c3_pin_result_shape f_a_b [("a", Py.int 10), ("b", Py.int 5)] pinned_f_a_b rfl

/-- C5: on duplicate-free inputs `get_transitions` succeeds; its map
contains a key `i` exactly when `olds[i]` also occurs in `news` (absent
elements are omitted), and every pair `(i, j)` of the map satisfies
`news[j] = olds[i]`. -/
theorem c5_get_transitions_characterization {α : Type} [DecidableEq α]
    (olds news : List α) (h1 : olds.Nodup) (h2 : news.Nodup) :
    ∃ m, get_transitions olds news = Except.ok m
    ∧ (∀ p ∈ m, ∃ (hi : p.1 < olds.length) (hj : p.2 < news.length),
        news.get ⟨p.2, hj⟩ = olds.get ⟨p.1, hi⟩)
    ∧ (∀ i : Nat,
        (∃ j, (i, j) ∈ m) ↔ ∃ hi : i < olds.length, olds.get ⟨i, hi⟩ ∈ news) := by
  refine ⟨_, get_transitions_ok h1 h2, ?_, ?_⟩
  · intro p hp
    obtain ⟨o, ho, rfl⟩ := List.mem_map.mp hp
    obtain ⟨hol, hon'⟩ := List.mem_filter.mp ho
    have hon : o ∈ news := by simpa using hon'
    refine ⟨index_of_lt_length hol, index_of_lt_length hon, ?_⟩
    rw [get_index_of hol, get_index_of hon]
  · intro i
    constructor
    · rintro ⟨j, hij⟩
      obtain ⟨o, ho, heq⟩ := List.mem_map.mp hij
      obtain ⟨hol, hon'⟩ := List.mem_filter.mp ho
      have hon : o ∈ news := by simpa using hon'
      have hi : index_of o olds = i := congrArg Prod.fst heq
      subst hi
      refine ⟨index_of_lt_length hol, ?_⟩
      rw [get_index_of hol]
      exact hon
    · rintro ⟨hi, hmem⟩
      refine ⟨index_of (olds.get ⟨i, hi⟩) news, ?_⟩
      apply List.mem_map.mpr
      refine ⟨olds.get ⟨i, hi⟩,
        List.mem_filter.mpr ⟨List.get_mem olds i hi, by simpa using hmem⟩, ?_⟩
      rw [index_of_get h1 ⟨i, hi⟩]


/-- C5, witness: the docstring example `olds = ("a","c","b","d")`,
`news = ("f","g","c","d","b","a")`. -/
theorem c5_get_transitions_characterization_witness :
    ∃ m, get_transitions ["a", "c", "b", "d"] ["f", "g", "c", "d", "b", "a"]
      = Except.ok m
    ∧ (∀ p ∈ m, ∃ (hi : p.1 < (["a", "c", "b", "d"] : List String).length)
        (hj : p.2 < (["f", "g", "c", "d", "b", "a"] : List String).length),
        (["f", "g", "c", "d", "b", "a"] : List String).get ⟨p.2, hj⟩
          = (["a", "c", "b", "d"] : List String).get ⟨p.1, hi⟩)
    ∧ (∀ i : Nat,
        (∃ j, (i, j) ∈ m) ↔ ∃ hi : i < (["a", "c", "b", "d"] : List String).length,
          (["a", "c", "b", "d"] : List String).get ⟨i, hi⟩
            ∈ (["f", "g", "c", "d", "b", "a"] : List String)) :=
  c5_get_transitions_characterization ["a", "c", "b", "d"]
    ["f", "g", "c", "d", "b", "a"] (by decide) (by decide)

/-- C6 (amended): for every byte stream and every non-empty replacement
dictionary whose values have the same length as their keys,
`multiple_replace` succeeds and preserves the stream length. -/
theorem c6_replace_preserves_length (b : List Nat)
    (rep : List (List Nat × List Nat)) (hne : rep ≠ [])
    (hlen : ∀ kv ∈ rep, kv.2.length = kv.1.length) :
    ∃ out, multiple_replace b rep = Except.ok out ∧ out.length = b.length := by
  obtain ⟨h1, h2⟩ := @multiple_replace_length b rep hne hlen
  exact ⟨_, h1, h2⟩

/-- C6, counterexample to the claim as stated: with the empty
replacement dictionary (each of its zero values trivially has the length
of its key) no output is produced — the source raises a `KeyError`. -/
theorem c6_empty_dict_raises :
    multiple_replace [1, 2, 1, 3] [] = Except.error Err.keyError :=
  rfl

/-- C6, witness: replacing byte `1` by byte `9` in a four-byte stream. -/
theorem c6_replace_preserves_length_witness :
    ∃ out, multiple_replace [1, 2, 1, 3] [([1], [9])] = Except.ok out
      ∧ out.length = ([1, 2, 1, 3] : List Nat).length :=
  c6_replace_preserves_length [1, 2, 1, 3] [([1], [9])] (by decide) (by decide)

/-- C9: `get_transitions` raises a `ValueError` whenever either input
has a duplicate, and `key2value` raises a `ValueError` whenever
`sources` or `dests` has a duplicate or some key of `source2dest` is
missing from `sources`; an error means no output is produced. -/
theorem c9_duplicate_inputs_raise_value_error :
    (∀ (α : Type) (inst : DecidableEq α) (olds news : List α),
        ¬ olds.Nodup ∨ ¬ news.Nodup →
        ∃ msg, @get_transitions α inst olds news
          = Except.error (Err.valueError msg))
    ∧ (∀ (α β : Type) (instA : DecidableEq α) (instB : DecidableEq β)
        (sources : List α) (dests : List β) (source2dest : List (α × β)),
        ¬ sources.Nodup ∨ ¬ dests.Nodup ∨ (∃ kv ∈ source2dest, kv.1 ∉ sources) →
        ∃ msg, @key2value α β instA instB sources dests source2dest
          = Except.error (Err.valueError msg)) := by
  constructor
  · intro α inst olds news h
    rw [get_transitions]
    by_cases h1 : olds.Nodup
    · rcases h with h | h
      · exact absurd h1 h
      · rw [if_neg (by simp [has_duplicates, h1]),
          if_pos (by simp [has_duplicates, h])]
        exact ⟨_, rfl⟩
    · rw [if_pos (by simp [has_duplicates, h1])]
      exact ⟨_, rfl⟩
  · intro α β instA instB sources dests source2dest h
    rw [key2value]
    by_cases h1 : sources.Nodup
    · rw [if_neg (by simp [has_duplicates, h1])]
      by_cases h2 : dests.Nodup
      · rw [if_neg (by simp [has_duplicates, h2])]
        rcases h with h | h | h
        · exact absurd h1 h
        · exact absurd h2 h
        · rw [if_pos ?_]
          · exact ⟨_, rfl⟩
          · obtain ⟨kv, hkv, hmem⟩ := h
            simp only [List.all_eq_true]
            intro hall
            exact hmem (by simpa using hall kv hkv)
      · rw [if_pos (by simp [has_duplicates, h2])]
        exact ⟨_, rfl⟩
    · rw [if_pos (by simp [has_duplicates, h1])]
      exact ⟨_, rfl⟩

/-- C9, witness: duplicate inputs on both functions and a missing
rename key. -/
theorem c9_duplicate_inputs_raise_value_error_witness :
    (∃ msg, get_transitions [1, 1] [2] = Except.error (Err.valueError msg))
    ∧ (∃ msg, key2value [1, 2] [3] [(7, 9)]
        = Except.error (Err.valueError msg)) :=
  ⟨c9_duplicate_inputs_raise_value_error.1 Nat instDecidableEqNat [1, 1] [2]
      (Or.inl (by decide)),
    c9_duplicate_inputs_raise_value_error.2 Nat Nat instDecidableEqNat
      instDecidableEqNat [1, 2] [3] [(7, 9)]
      (Or.inr (Or.inr ⟨(7, 9), by decide, by decide⟩))⟩

/-- C7 (amended): the equivalence checker is reflexive for every
routine whose pools are duplicate-free, fit in an operand byte (at most
256 entries each), and are not all empty. -/
theorem c7_equivalence_reflexive (c : Code)
    (h1 : c.co_consts.Nodup) (h2 : c.co_names.Nodup) (h3 : c.co_varnames.Nodup)
    (hl1 : c.co_consts.length ≤ 256) (hl2 : c.co_names.length ≤ 256)
    (hl3 : c.co_varnames.length ≤ 256)
    (hne : c.co_consts ≠ [] ∨ c.co_names ≠ [] ∨ c.co_varnames ≠ []) :
    are_functions_equivalent c c = Except.ok true := by
  obtain ⟨Bc, hBc, hidc, hnec⟩ := get_b_identity OpCode.LOAD_CONST hl1
  obtain ⟨Bn1, hBn1, hidn1, hnen1⟩ := get_b_identity OpCode.LOAD_GLOBAL hl2
  obtain ⟨Bn2, hBn2, hidn2, hnen2⟩ := get_b_identity OpCode.LOAD_METHOD hl2
  obtain ⟨Bn3, hBn3, hidn3, hnen3⟩ := get_b_identity OpCode.LOAD_ATTR hl2
  obtain ⟨Bn4, hBn4, hidn4, hnen4⟩ := get_b_identity OpCode.STORE_ATTR hl2
  obtain ⟨Bv1, hBv1, hidv1, hnev1⟩ := get_b_identity OpCode.LOAD_FAST hl3
  obtain ⟨Bv2, hBv2, hidv2, hnev2⟩ := get_b_identity OpCode.STORE_FAST hl3
  have htc := get_transitions_ok h1 h1
  have htn := get_transitions_ok h2 h2
  have htv := get_transitions_ok h3 h3
  have hid : ∀ kv ∈ Bc ++ Bn1 ++ Bn2 ++ Bn3 ++ Bn4 ++ Bv1 ++ Bv2,
      kv.2 = kv.1 := by
    intro kv hkv
    simp only [List.mem_append] at hkv
    rcases hkv with ((((((h | h) | h) | h) | h) | h) | h)
    exacts [hidc kv h, hidn1 kv h, hidn2 kv h, hidn3 kv h, hidn4 kv h,
      hidv1 kv h, hidv2 kv h]
  have hne2 : Bc ++ Bn1 ++ Bn2 ++ Bn3 ++ Bn4 ++ Bv1 ++ Bv2 ≠ [] := by
    intro hall
    simp only [List.append_eq_nil] at hall
    rcases hne with h | h | h
    · exact h (hnec.mp hall.1.1.1.1.1.1)
    · exact h (hnen1.mp hall.1.1.1.1.1.2)
    · exact h (hnev1.mp hall.1.2)
  have hmr := @multiple_replace_id c.co_code
    (Bc ++ Bn1 ++ Bn2 ++ Bn3 ++ Bn4 ++ Bv1 ++ Bv2) hne2 hid
  simp only [are_functions_equivalent, htc, htn, htv, Except_bind_ok, hBc,
    hBn1, hBn2, hBn3, hBn4, hBv1, hBv2, hmr]
  simp [set_eq_self]

/-- C7, counterexample to the claim as stated: for a routine whose
three pools are all empty the transition dictionary is empty and the
checker raises a `KeyError` instead of returning `True`. -/
theorem c7_empty_pools_not_reflexive :
    are_functions_equivalent c_empty c_empty = Except.error Err.keyError :=
  rfl

/-- C7, witness: reflexivity on the routine `LOAD_CONST None;
RETURN_VALUE`. -/
theorem c7_equivalence_reflexive_witness :
    are_functions_equivalent zero_param_f zero_param_f = Except.ok true :=
  c7_equivalence_reflexive zero_param_f (by decide) (by decide) (by decide)
    (by decide) (by decide) (by decide) (Or.inl (by decide))

/-- C8 (amended): when every instruction slice is a non-empty byte list
and no shifted jump operand reaches `2 ^ 16`, `get_shifted_bytecode`
returns exactly the stream described by the claim: jump operands are
read as little-endian integers, increased by `qty` and re-encoded as
exactly two little-endian bytes, and every other instruction is copied
byte-for-byte. -/
theorem c8_shifted_bytecode_spec (c : Code) (qty : Nat)
    (hwf : ∀ t ∈ get_instructions_tuples c, t ≠ [] ∧ ∀ b ∈ t, b < 256)
    (hov : ∀ t ∈ get_instructions_tuples c,
        is_jump_op (t.headD 0) = true → fromLE t.tail + qty < 65536) :
    get_shifted_bytecode c qty
      = Except.ok (shift_claim (get_instructions_tuples c) qty) := by
  have haux : ∀ ts : List (List Nat),
      (∀ t ∈ ts, t ≠ [] ∧ ∀ b ∈ t, b < 256) →
      (∀ t ∈ ts, is_jump_op (t.headD 0) = true → fromLE t.tail + qty < 65536) →
      ∃ M, shift_list qty ts = Except.ok M ∧ M.flatten = shift_claim ts qty := by
    intro ts
    induction ts with
    | nil => exact fun _ _ => ⟨[], rfl, rfl⟩
    | cons t rest ih =>
      intro hwf1 hov1
      obtain ⟨M, hM, hMf⟩ := ih
        (fun u hu => hwf1 u (List.mem_cons_of_mem _ hu))
        (fun u hu => hov1 u (List.mem_cons_of_mem _ hu))
      obtain ⟨hne, hbytes⟩ := hwf1 t (List.mem_cons_self _ _)
      cases t with
      | nil => exact absurd rfl hne
      | cons op value =>
        have hop : op < 256 := hbytes op (List.mem_cons_self _ _)
        have hval : (value.all fun b => decide (b < 256)) = true := by
          simp only [List.all_eq_true, decide_eq_true_eq]
          exact fun b hb => hbytes b (List.mem_cons_of_mem _ hb)
        by_cases hj : is_jump_op op = true
        · have hov2 : fromLE value + qty < 65536 :=
            hov1 (op :: value) (List.mem_cons_self _ _) (by simpa using hj)
          refine ⟨[op, (fromLE value + qty) % 256, (fromLE value + qty) / 256]
              :: M, ?_, ?_⟩
          · rw [shift_list, shift_instruction, if_pos hop, if_pos hj,
              if_pos hval, if_pos hov2, Except_bind_ok, hM, Except_bind_ok]
          · simp only [List.flatten_cons, hMf, shift_claim, List.map_cons,
              if_pos hj]
        · refine ⟨(op :: value) :: M, ?_, ?_⟩
          · rw [shift_list, shift_instruction, if_pos hop, if_neg hj,
              if_pos hval, Except_bind_ok, hM, Except_bind_ok]
          · simp only [List.flatten_cons, hMf, shift_claim, List.map_cons,
              if_neg hj]
  obtain ⟨M, hM, hMf⟩ := haux (get_instructions_tuples c) hwf hov
  rw [get_shifted_bytecode, hM, Except_bind_ok, hMf]

/-- C8, counterexample to the claim as stated: with the jump operand `5`
and delta `65531` the shifted target no longer fits in two bytes, so no
output stream exists — the source raises an `OverflowError` instead. -/
theorem c8_shift_overflow :
    get_shifted_bytecode jump_f 65531 = Except.error Err.overflowError :=
  rfl

/-- C8, witness: shifting `JUMP_ABSOLUTE 5; LOAD_CONST 1` by 2. -/
theorem c8_shifted_bytecode_spec_witness :
    get_shifted_bytecode jump_f 2
      = Except.ok (shift_claim (get_instructions_tuples jump_f) 2) :=
  c8_shifted_bytecode_spec jump_f 2 (by decide) (by decide)

/-- The merged constant pool of 256 integers and the pinned extras
`(None, s)` places `None` at index 256. -/
theorem none_index_merge (s : String) :
    256 ≤ index_of Py.none (remove_duplicates
      (int_pool 256 ++ [Py.none, Py.str s])) := by
  have hshape : ∀ x ∈ [Py.none, Py.str s], ∀ k : Int, x ≠ Py.int k := by
    intro x hx k
    rcases List.mem_cons.mp hx with rfl | hx2
    · exact fun h => Py.noConfusion h
    rcases List.mem_cons.mp hx2 with rfl | hx3
    · exact fun h => Py.noConfusion h
    cases hx3
  have hnd : ([Py.none, Py.str s]).Nodup := by simp
  obtain ⟨hd, hi⟩ := @merge_extra_index 256 [Py.none, Py.str s] hnd hshape
  rw [hd, hi Py.none (List.mem_cons_self _ _)]
  simp [index_of]

/-- Extending the pool of 256 integers with the single pinned value
`None` places it at index 256. -/
theorem none_index_extend :
    256 ≤ index_of Py.none (remove_duplicates (int_pool 256 ++ [Py.none])) := by
  have hshape : ∀ x ∈ [Py.none], ∀ k : Int, x ≠ Py.int k := by
    intro x hx k
    rcases List.mem_cons.mp hx with rfl | hx2
    · exact fun h => Py.noConfusion h
    cases hx2
  obtain ⟨hd, hi⟩ := @merge_extra_index 256 [Py.none] (by simp) hshape
  rw [hd, hi Py.none (List.mem_cons_self _ _)]
  simp [index_of]

/-- C4 (amended): `inline` raises the `ValueError` "`pre_func` returns
something" — before any specialization — whenever `has_no_return(pre)`
returns false; and `has_no_return` returns true iff the stream holds
exactly one `RETURN_VALUE` byte and the second-to-last instruction loads
the `None` sentinel.  (`inline` can also raise a `ValueError` at later
stages, so "exactly when" fails; see the counterexample.) -/
theorem c4_no_return_check :
    (∀ (pre main : Code) (args : List (String × Py)),
        has_no_return pre = Except.ok false →
        inline pre main args
          = Except.error (Err.valueError "`pre_func` returns something"))
    ∧ (∀ c : Code, (∀ b ∈ c.co_code, b < 256) →
        (has_no_return c = Except.ok true ↔
          (List.count OpCode.RETURN_VALUE c.co_code = 1
            ∧ Py.none ∈ c.co_consts
            ∧ ∃ h2 : 2 ≤ (get_instructions_tuples c).length,
                ((get_instructions_tuples c).get
                  ⟨(get_instructions_tuples c).length - 2, by omega⟩).take 2
                  = [OpCode.LOAD_CONST, index_of Py.none c.co_consts]))) := by
  constructor
  · intro pre main args h
    simp [inline, h, Except_bind_ok]
  · intro c hbytes
    rw [has_no_return]
    by_cases hmem : Py.none ∈ c.co_consts
    · rw [if_pos hmem]
      by_cases hidx : index_of Py.none c.co_consts < 256
      · rw [if_pos hidx]
        by_cases hcount : (multiple_find c.co_code [OpCode.RETURN_VALUE]).length = 1
        · rw [if_pos hcount]
          by_cases hlen : 2 ≤ (get_instructions_tuples c).length
          · rw [dif_pos hlen]
            constructor
            · intro h
              have hp : ((get_instructions_tuples c).get
                  ⟨(get_instructions_tuples c).length - 2, by omega⟩).take 2
                  = [OpCode.LOAD_CONST, index_of Py.none c.co_consts] := by
                have := Except.ok.inj h
                exact of_decide_eq_true this
              refine ⟨?_, hmem, hlen, hp⟩
              rw [← multiple_find_singleton_length]
              exact hcount
            · rintro ⟨_, _, _, hp⟩
              rw [decide_eq_true hp]
          · rw [dif_neg hlen]
            constructor
            · intro h
              exact Except.noConfusion h
            · rintro ⟨_, _, h2, _⟩
              exact absurd h2 hlen
        · rw [if_neg hcount]
          constructor
          · intro h
            have := Except.ok.inj h
            cases this
          · rintro ⟨hc, _, _⟩
            rw [← multiple_find_singleton_length] at hc
            exact absurd hc hcount
      · rw [if_neg hidx]
        constructor
        · intro h
          exact Except.noConfusion h
        · rintro ⟨_, _, h2, htake⟩
          have hmem2 : index_of Py.none c.co_consts
              ∈ ((get_instructions_tuples c).get
                ⟨(get_instructions_tuples c).length - 2, by omega⟩).take 2 := by
            rw [htake]
            simp
          have hmem3 : index_of Py.none c.co_consts ∈ c.co_code :=
            mem_instruction_mem_code
              (List.get_mem (get_instructions_tuples c) _ _)
              ((List.take_sublist _ _).subset hmem2)
          exact absurd (hbytes _ hmem3) hidx
    · rw [if_neg hmem]
      constructor
      · intro h
        exact Except.noConfusion h
      · rintro ⟨_, habs, _⟩
        exact absurd habs hmem

/-- C4, counterexample to "exactly when": `pre_f` passes the structural
no-return check, yet inlining it into a routine with 256 constants
raises a `ValueError` during pool renumbering (the merged index of the
`None` sentinel does not fit in an operand byte). -/
theorem c4_value_error_with_passing_check :
    has_no_return pre_f = Except.ok true
    ∧ inline pre_f main_256 [("a", Py.str "q")]
      = Except.error (Err.valueError "bytes must be in range(0, 256)") := by
  refine ⟨rfl, ?_⟩
  refine @inline_big_const_error pre_f main_256 [("a", Py.str "q")] pinned_pre_f
    rfl rfl ⟨[100, 0, 83, 0], rfl⟩ (by decide) (by decide) ?_
  exact ⟨Py.none, by decide, none_index_merge "q"⟩

/-- C4, witness: the error branch taken on a pre-routine that returns
its argument, and the characterization evaluated on `pre_f`. -/
theorem c4_no_return_check_witness :
    inline ret_f zero_param_f [("a", Py.int 1)]
      = Except.error (Err.valueError "`pre_func` returns something")
    ∧ (has_no_return pre_f = Except.ok true ↔
        (List.count OpCode.RETURN_VALUE pre_f.co_code = 1
          ∧ Py.none ∈ pre_f.co_consts
          ∧ ∃ h2 : 2 ≤ (get_instructions_tuples pre_f).length,
              ((get_instructions_tuples pre_f).get
                ⟨(get_instructions_tuples pre_f).length - 2, by omega⟩).take 2
                = [OpCode.LOAD_CONST, index_of Py.none pre_f.co_consts])) :=
  ⟨c4_no_return_check.1 ret_f zero_param_f [("a", Py.int 1)] rfl,
    c4_no_return_check.2 pre_f (by decide)⟩

/-- C10: `bytes([i])` forces every pool renumbering to fit in a single
byte: `get_b_transitions` raises a `ValueError` for any transition map
holding an index above 255, and in consequence `pin_arguments`,
`are_functions_equivalent` and `inline` fail with that `ValueError` as
soon as a routine makes a pool renumbering touch index 256 (a pinned
value at constant index 256, a shared constant at pool index 256, or a
specialized pre-routine constant landing at merged index 256). -/
theorem c10_single_byte_pool_indices :
    (∀ (t : List (Nat × Nat)) (bs bd : Nat),
        (∃ p ∈ t, 256 ≤ p.1 ∨ 256 ≤ p.2) →
        get_b_transitions t bs bd
          = Except.error (Err.valueError "bytes must be in range(0, 256)"))
    ∧ (∀ (c : Code) (args : List (String × Py)),
        set_eq c.params (args.map Prod.fst) = true →
        c.co_varnames.Nodup →
        (∃ p ∈ args, 256 ≤ index_of p.1 c.co_varnames
          ∨ 256 ≤ index_of p.2
              (remove_duplicates (c.co_consts ++ args.map Prod.snd))) →
        pin_arguments c args
          = Except.error (Err.valueError "bytes must be in range(0, 256)"))
    ∧ (∀ l r : Code,
        l.co_consts.Nodup → r.co_consts.Nodup → l.co_names.Nodup →
        r.co_names.Nodup → l.co_varnames.Nodup → r.co_varnames.Nodup →
        (∃ x, x ∈ l.co_consts ∧ x ∈ r.co_consts
          ∧ (256 ≤ index_of x l.co_consts ∨ 256 ≤ index_of x r.co_consts)) →
        are_functions_equivalent l r
          = Except.error (Err.valueError "bytes must be in range(0, 256)"))
    ∧ (∀ (pre main : Code) (args : List (String × Py)) (pinned : Code),
        has_no_return pre = Except.ok true →
        pin_arguments pre args = Except.ok pinned →
        (∃ s, get_shifted_bytecode main
            ((get_instructions_tuples pre).dropLast.dropLast.flatten.length)
          = Except.ok s) →
        pinned.co_names.Nodup → pinned.co_varnames.Nodup →
        (∃ x ∈ pinned.co_consts, 256 ≤ index_of x
            (remove_duplicates (main.co_consts ++ pinned.co_consts))) →
        inline pre main args
          = Except.error (Err.valueError "bytes must be in range(0, 256)")) :=
  ⟨fun t bs bd h => @get_b_transitions_error t bs bd h,
    fun _ _ h1 h2 h3 => pin_arguments_big_error h1 h2 h3,
    fun _ _ a1 a2 a3 a4 a5 a6 hx =>
      are_functions_equivalent_big_error a1 a2 a3 a4 a5 a6 hx,
    fun _ _ _ _ b1 b2 b3 b4 b5 b6 => inline_big_const_error b1 b2 b3 b4 b5 b6⟩

/-- C10, witness: the four failure modes at concrete inputs — a map
with new index 256; pinning `a` to `None` on a routine with 256
constants; checking a routine with 257 constants against itself; and
inlining `pre_f` (pinned constant pool `(None, "r")`) into a main
routine with 256 constants. -/
theorem c10_single_byte_pool_indices_witness :
    get_b_transitions [(0, 256)] OpCode.LOAD_CONST OpCode.LOAD_CONST
      = Except.error (Err.valueError "bytes must be in range(0, 256)")
    ∧ pin_arguments g_256 [("a", Py.none)]
      = Except.error (Err.valueError "bytes must be in range(0, 256)")
    ∧ are_functions_equivalent big_257 big_257
      = Except.error (Err.valueError "bytes must be in range(0, 256)")
    ∧ inline pre_f main_256 [("a", Py.str "r")]
      = Except.error (Err.valueError "bytes must be in range(0, 256)") :=
  ⟨c10_single_byte_pool_indices.1 [(0, 256)] OpCode.LOAD_CONST OpCode.LOAD_CONST
      ⟨(0, 256), by decide, by decide⟩,
    c10_single_byte_pool_indices.2.1 g_256 [("a", Py.none)] (by decide) (by decide)
      ⟨("a", Py.none), by decide, Or.inr none_index_extend⟩,
    c10_single_byte_pool_indices.2.2.1 big_257 big_257
      (int_pool_nodup 257) (int_pool_nodup 257) List.nodup_nil List.nodup_nil
      List.nodup_nil List.nodup_nil
      ⟨Py.int (Int.ofNat 256 + 1),
        List.mem_map.mpr ⟨256, List.mem_range.mpr (by omega), rfl⟩,
        List.mem_map.mpr ⟨256, List.mem_range.mpr (by omega), rfl⟩,
        Or.inl (by
          show 256 ≤ index_of (Py.int (Int.ofNat 256 + 1)) (int_pool 257)
          rw [index_of_int_pool (by omega)])⟩,
    c10_single_byte_pool_indices.2.2.2 pre_f main_256 [("a", Py.str "r")]
      pinned_pre_r rfl rfl ⟨[100, 0, 83, 0], rfl⟩ List.nodup_nil List.nodup_nil
      ⟨Py.none, by decide, none_index_merge "r"⟩⟩

end Inliner
